import Mathlib

/-!
Verification of the taxonomy-resolver / quota-bounded collector pipeline from
the notebook `gt_object_det/2b. SageMaker Built-In Algo.ipynb`.

The embedding models:
  * the case-insensitive class-name resolver (`class_root_ids` cell),
  * the recursive hierarchy expansion (`get_all_subclasses`),
  * the quota-bounded streaming collector (`class_bbs` / `bbs` cell),
with Python dicts rendered as insertion-ordered association lists and Python
sets of label ids as membership lists / `Finset`s.
-/

/-- One parsed row of `annotations-bbox.csv`:
`img_id, _, cls_id, conf, xmin, xmax, ymin, ymax, *_ = row`. -/
structure Row where
  img : String
  src : String
  cls : String
  conf : String
  xmin : String
  xmax : String
  ymin : String
  ymax : String
deriving DecidableEq, Repr

/-- A bounding box as the notebook stores it: `[class_name, xmin, xmax, ymin, ymax]`. -/
abbrev Box := List String

/-- Builds the list appended by `class_bbs[name][img_id].append([name, xmin, xmax, ymin, ymax])`. -/
def mkBox (name : String) (r : Row) : Box :=
  [name, r.xmin, r.xmax, r.ymin, r.ymax]

/-- Python `dict.get`: first entry with the given key (keys are unique in a dict). -/
def dget {A : Type} : List (String × A) → String → Option A
  | [], _ => none
  | (k', v) :: rest, k => if k' = k then some v else dget rest k

/-- Python `dict[k] = v`: update the entry in place if the key exists, else append. -/
def dset {A : Type} : List (String × A) → String → A → List (String × A)
  | [], k, v => [(k, v)]
  | (k', v') :: rest, k, v =>
      if k' = k then (k, v) :: rest else (k', v') :: dset rest k v

/-- Python `del dict[k]` (keys are unique, so removing all occurrences agrees). -/
def ddel {A : Type} : List (String × A) → String → List (String × A)
  | [], _ => []
  | (k', v) :: rest, k =>
      if k' = k then ddel rest k else (k', v) :: ddel rest k

/-- A Python dict comprehension: insert the pairs left to right. -/
def dictOf {A : Type} (ps : List (String × A)) : List (String × A) :=
  ps.foldl (fun acc p => dset acc p.1 p.2) []

/-- Python `str.lower()`: per-character lower-casing (the class names and display
names involved are ASCII). -/
def strLower (s : String) : String :=
  String.mk (s.data.map Char.toLower)

/-! ## Taxonomy resolver (`class_root_ids` cell) -/

/-- State of the resolver loop: `class_root_ids` and `classes_lower_notfound`. -/
structure ResolveState where
  rootIds : List (String × Option String)
  notFound : List (String × String)
deriving DecidableEq, Repr

/-- `class_root_ids = { s: None for s in CLASS_NAMES }` and
`classes_lower_notfound = { s.lower(): s for s in CLASS_NAMES }`. -/
def initResolveState (names : List String) : ResolveState :=
  { rootIds := dictOf (names.map (fun s => (s, (none : Option String)))),
    notFound := dictOf (names.map (fun s => ((strLower s), s))) }

/-- The loop over the class-description CSV.  A table row is `(label_id, display_name)`,
i.e. `(row[0], row[1])`.  On a match the root id is recorded, the lower-cased name is
deleted from the pending dict, and the loop breaks once the pending dict is empty. -/
def resolveLoop (st : ResolveState) : List (String × String) → ResolveState
  | [] => st
  | row :: rest =>
      match dget st.notFound (strLower row.2) with
      | some matchName =>
          let st' : ResolveState :=
            { rootIds := dset st.rootIds matchName (some row.1),
              notFound := ddel st.notFound (strLower row.2) }
          if st'.notFound.isEmpty then st' else resolveLoop st' rest
      | none => resolveLoop st rest

/-- The whole resolver cell: run the loop, then either return the id mapping or
raise listing `[v for (k,v) in classes_lower_notfound.items()]`. -/
def class_root_ids (names : List String) (table : List (String × String)) :
    Except (List String) (List (String × Option String)) :=
  let final := resolveLoop (initResolveState names) table
  if final.notFound.isEmpty then Except.ok final.rootIds
  else Except.error (final.notFound.map (fun p => p.2))

/-- The id of the first table row whose display name lower-cases to `lowerName`. -/
def firstMatch (lowerName : String) : List (String × String) → Option String
  | [] => none
  | row :: rest => if (strLower row.2) = lowerName then some row.1 else firstMatch lowerName rest

/-! ## Label hierarchy (`get_all_subclasses`) -/

mutual
/-- A node of `labels-hierarchy.json`: `leaf` is a dict without a `"Subcategory"` key,
`node` is a dict with one (the forest keeps the JSON array order). -/
inductive LabelTree : Type where
  | leaf : String → LabelTree
  | node : String → LabelForest → LabelTree
/-- An ordered sequence of sibling subtrees (a `"Subcategory"` JSON array). -/
inductive LabelForest : Type where
  | nil : LabelForest
  | cons : LabelTree → LabelForest → LabelForest
end

/-- The `"LabelName"` field of a node. -/
def LabelTree.labelName : LabelTree → String
  | .leaf n => n
  | .node n _ => n

mutual
/-- Inner helper `all_subtree_class_ids`: the node's id united with all ids below it. -/
def all_subtree_class_ids : LabelTree → Finset String
  | .leaf n => {n}
  | .node n subs => insert n (all_subtree_forest_ids subs)
/-- `set().union(*[all_subtree_class_ids(s) for s in subtree["Subcategory"]])`. -/
def all_subtree_forest_ids : LabelForest → Finset String
  | .nil => ∅
  | .cons t ts => all_subtree_class_ids t ∪ all_subtree_forest_ids ts
end

mutual
/-- `get_all_subclasses(class_id, tree)` from the notebook. -/
def get_all_subclasses (class_id : String) : LabelTree → Finset String
  | .leaf n => if n = class_id then {n} else ∅
  | .node n subs =>
      if n = class_id then insert n (all_subtree_forest_ids subs)
      else get_all_subclasses_forest class_id subs
/-- `set().union(*[get_all_subclasses(class_id, s) for s in tree["Subcategory"]])`. -/
def get_all_subclasses_forest (class_id : String) : LabelForest → Finset String
  | .nil => ∅
  | .cons t ts => get_all_subclasses class_id t ∪ get_all_subclasses_forest class_id ts
end

mutual
/-- All ids occurring in a tree, in depth-first order. -/
def allIdsList : LabelTree → List String
  | .leaf n => [n]
  | .node n subs => n :: allIdsForest subs
/-- All ids occurring in a forest, in depth-first order. -/
def allIdsForest : LabelForest → List String
  | .nil => []
  | .cons t ts => allIdsList t ++ allIdsForest ts
end

mutual
/-- Depth-first search for the node carrying a given id (first hit in DFS order). -/
def dfsFind (class_id : String) : LabelTree → Option LabelTree
  | .leaf n => if n = class_id then some (.leaf n) else none
  | .node n subs =>
      if n = class_id then some (.node n subs) else dfsFindForest class_id subs
/-- DFS over a forest. -/
def dfsFindForest (class_id : String) : LabelForest → Option LabelTree
  | .nil => none
  | .cons t ts =>
      match dfsFind class_id t with
      | some u => some u
      | none => dfsFindForest class_id ts
end

/-! ## Quota-bounded collector (`class_bbs` / `bbs` cell) -/

/-- One requested class: its name and the resolved id set (`class_id_sets[name]`). -/
structure ClassSpec where
  name : String
  idSet : List String
deriving DecidableEq, Repr

/-- Per-class collector state: the insertion-ordered `class_bbs[name]` dict and the
`name ∈ unfilled_class_names` flag. -/
structure ClassState where
  groups : List (String × List Box)
  unfilled : Bool
deriving DecidableEq, Repr

/-- `class_bbs[name][img_id].append(b)` on a `defaultdict(list)`: extend the existing
image group in place, or open a new group at the end. -/
def insertBox : List (String × List Box) → String → Box → List (String × List Box)
  | [], img, b => [(img, [b])]
  | (k, v) :: rest, img, b =>
      if k = img then (k, v ++ [b]) :: rest else (k, v) :: insertBox rest img b

/-- The body of the inner `for name in curr_unfilled_class_names` loop, for one class:
if the class is still unfilled and the row's label id is in its id set, append the box
and drop the class from the unfilled set once it holds `needed` distinct images. -/
def stepClass (needed : Nat) (sp : ClassSpec) (st : ClassState) (r : Row) : ClassState :=
  if st.unfilled = true ∧ r.cls ∈ sp.idSet then
    let g := insertBox st.groups r.img (mkBox sp.name r)
    { groups := g, unfilled := decide (g.length < needed) }
  else st

/-- One iteration of the CSV loop: skip rows whose image is in `SKIP_IMAGES`,
otherwise update every class (classes are updated independently, so iterating the
set copy in any order gives this). -/
def stepRow (skip : List String) (needed : Nat) (specs : List ClassSpec)
    (sts : List ClassState) (r : Row) : List ClassState :=
  if r.img ∈ skip then sts
  else (specs.zip sts).map (fun p => stepClass needed p.1 p.2 r)

/-- `class_bbs = { name: defaultdict(list) for name in class_id_sets }` plus
`unfilled_class_names = set(CLASS_NAMES)`. -/
def initStates (specs : List ClassSpec) : List ClassState :=
  specs.map (fun _ => { groups := [], unfilled := true })

/-- The whole streaming loop over the annotation CSV. -/
def runCollector (skip : List String) (needed : Nat) (specs : List ClassSpec)
    (rows : List Row) : List ClassState :=
  rows.foldl (stepRow skip needed specs) (initStates specs)

/-- The same loop restricted to a single class, starting from a given state. -/
def runClassFrom (skip : List String) (needed : Nat) (sp : ClassSpec)
    (st : ClassState) (rows : List Row) : ClassState :=
  rows.foldl (fun st r => if r.img ∈ skip then st else stepClass needed sp st r) st

/-- The single-class run from the initial state. -/
def runClass (skip : List String) (needed : Nat) (sp : ClassSpec)
    (rows : List Row) : ClassState :=
  runClassFrom skip needed sp { groups := [], unfilled := true } rows

/-- Python `l[-n:]` for the trim `class_bbs_all_unfiltered[-N_EXAMPLES_PER_CLASS:]`
(for `n = 0` Python returns the whole list). -/
def lastSlice (n : Nat) (l : List (String × List Box)) : List (String × List Box) :=
  if n = 0 then l else l.drop (l.length - n)

/-- `bbs[img_id] = bbs[img_id] + boxes` on a `defaultdict(list)`. -/
def addBoxes : List (String × List Box) → String → List Box → List (String × List Box)
  | [], img, bs => [(img, bs)]
  | (k, v) :: rest, img, bs =>
      if k = img then (k, v ++ bs) :: rest else (k, v) :: addBoxes rest img bs

/-- `for (img_id, boxes) in class_bbs_batch: bbs[img_id] = bbs[img_id] + boxes`. -/
def mergeBatch (acc batch : List (String × List Box)) : List (String × List Box) :=
  batch.foldl (fun a p => addBoxes a p.1 p.2) acc

/-- The full collector cell: stream, trim each class to its last `nPerClass` image
groups, and merge everything into the single `bbs` dict. -/
def collectBbs (skip : List String) (nPerClass offset : Nat) (specs : List ClassSpec)
    (rows : List Row) : List (String × List Box) :=
  let needed := nPerClass * (offset + 1)
  let finals := runCollector skip needed specs rows
  (specs.zip finals).foldl (fun acc p => mergeBatch acc (lastSlice nPerClass p.2.groups)) []

/-- `n_images = len(bbs.keys())`. -/
def nImages (skip : List String) (nPerClass offset : Nat) (specs : List ClassSpec)
    (rows : List Row) : Nat :=
  (collectBbs skip nPerClass offset specs rows).length

/-- The data of the quota warning: for each class still in `unfilled_class_names`
after the stream, the printed pair `name (len(class_bbs[name]) images)`. -/
def quotaWarnings (skip : List String) (nPerClass offset : Nat) (specs : List ClassSpec)
    (rows : List Row) : List (String × Nat) :=
  let needed := nPerClass * (offset + 1)
  let finals := runCollector skip needed specs rows
  ((specs.zip finals).filter (fun p => p.2.unfilled)).map
    (fun p => (p.1.name, p.2.groups.length))

/-- Append an image id if it has not been seen yet (first-occurrence dedup). -/
def pushNew (l : List String) (x : String) : List String :=
  if x ∈ l then l else l ++ [x]

/-- First-occurrence accumulation of matching non-excluded image ids, from `acc`. -/
def seenFrom (skip : List String) (sp : ClassSpec) (acc : List String)
    (rows : List Row) : List String :=
  rows.foldl
    (fun acc r => if r.img ∉ skip ∧ r.cls ∈ sp.idSet then pushNew acc r.img else acc) acc

/-- The distinct non-excluded image ids having at least one row matching the class,
in order of first occurrence. -/
def seenImgs (skip : List String) (sp : ClassSpec) (rows : List Row) : List String :=
  seenFrom skip sp [] rows

/-- Value lookup in the merged dict, defaulting to the empty list. -/
def dgetBoxes (l : List (String × List Box)) (k : String) : List Box :=
  (dget l k).getD []

/-! ## Concrete data for the worked examples -/

/-- The scenario table `[("/m/01x3z","Boot"),("/m/0jbk","Cat")]`. -/
def demoTable : List (String × String) := [("/m/01x3z", "Boot"), ("/m/0jbk", "Cat")]

/-- The scenario hierarchy: a super-root with the two leaf classes below it. -/
def demoTree : LabelTree :=
  .node "/m/0" (.cons (.leaf "/m/01x3z") (.cons (.leaf "/m/0jbk") .nil))

/-- Scenario row `("img1","/m/01x3z",...)`. -/
def demoBootRow1 : Row := ⟨"img1", "src", "/m/01x3z", "1", "0", "1", "0", "1"⟩

/-- Scenario row `("img1","/m/0jbk",...)`. -/
def demoCatRow1 : Row := ⟨"img1", "src", "/m/0jbk", "1", "0", "1", "0", "1"⟩

/-- Scenario row `("img2","/m/01x3z",...)`. -/
def demoBootRow2 : Row := ⟨"img2", "src", "/m/01x3z", "1", "0", "1", "0", "1"⟩

/-- The two scenario classes with their singleton id sets. -/
def demoSpecs : List ClassSpec := [⟨"Boot", ["/m/01x3z"]⟩, ⟨"Cat", ["/m/0jbk"]⟩]

/-- The scenario annotation stream. -/
def demoRows : List Row := [demoBootRow1, demoCatRow1, demoBootRow2]

/-- A single class matching label id `"b"`. -/
def cexSpec : ClassSpec := ⟨"Boot", ["b"]⟩

/-- A matching row for image `img1`. -/
def cexRow1 : Row := ⟨"img1", "s", "b", "1", "0", "1", "0", "1"⟩

/-- A second matching row for image `img1`, with different coordinates. -/
def cexRow2 : Row := ⟨"img1", "s", "b", "1", "2", "3", "2", "3"⟩

/-- A matching row for image `img2`. -/
def cexRow3 : Row := ⟨"img2", "s", "b", "1", "4", "5", "4", "5"⟩

/-- A stream where `img1` keeps matching after the capacity-1 run has frozen. -/
def cexRows : List Row := [cexRow1, cexRow2, cexRow3]

/-- `A` is an earlier snapshot of the same accumulating dict as `B`: the key sequence
of `A` begins the key sequence of `B`, and each image group of `A` begins the
corresponding group of `B`. -/
def GroupsLE (A B : List (String × List Box)) : Prop :=
  A.map Prod.fst <+: B.map Prod.fst ∧
    ∀ p ∈ A, ∃ v, (p.1, v) ∈ B ∧ p.2 <+: v

/-- Simulation relation between a smaller-capacity run and a larger-capacity run. -/
def SimInv (st st' : ClassState) : Prop :=
  (st.unfilled = true ∧ st = st') ∨
    (st.unfilled = false ∧ GroupsLE st.groups st'.groups)

/-- The resolver-loop invariant after processing the table rows `p`:
`class_root_ids` holds the first case-insensitive match of each name among `p`,
and `classes_lower_notfound` holds exactly the still-unmatched names. -/
def ResolveInv (names : List String) (p : List (String × String))
    (st : ResolveState) : Prop :=
  st.rootIds = names.map (fun n => (n, firstMatch (strLower n) p)) ∧
  st.notFound = (names.filter (fun n => (firstMatch (strLower n) p).isNone)).map
      (fun n => ((strLower n), n))


/-! ## Helper lemmas: association lists -/

theorem insertBox_keys (l : List (String × List Box)) (img : String) (b : Box) :
    (insertBox l img b).map Prod.fst =
      if img ∈ l.map Prod.fst then l.map Prod.fst else l.map Prod.fst ++ [img] := by
  induction l with
  | nil => simp [insertBox]
  | cons p rest ih =>
      obtain ⟨k, v⟩ := p
      by_cases hk : k = img
      · subst hk
        simp [insertBox]
      · simp only [insertBox, if_neg hk, List.map_cons]
        rw [ih]
        by_cases hm : img ∈ rest.map Prod.fst
        · rw [if_pos hm, if_pos (by simp [hm])]
        · rw [if_neg hm, if_neg (by simp [hm, Ne.symm hk])]
          simp

theorem insertBox_length (l : List (String × List Box)) (img : String) (b : Box) :
    (insertBox l img b).length =
      if img ∈ l.map Prod.fst then l.length else l.length + 1 := by
  have h := congrArg List.length (insertBox_keys l img b)
  simp only [List.length_map] at h
  rw [h]
  by_cases hm : img ∈ l.map Prod.fst <;> simp [hm]

theorem insertBox_keys_nodup (l : List (String × List Box)) (img : String) (b : Box)
    (h : (l.map Prod.fst).Nodup) : ((insertBox l img b).map Prod.fst).Nodup := by
  rw [insertBox_keys]
  by_cases hm : img ∈ l.map Prod.fst
  · rwa [if_pos hm]
  · rw [if_neg hm]
    refine List.Nodup.append h (List.nodup_singleton img) ?_
    intro a ha hb
    simp only [List.mem_singleton] at hb
    subst hb
    exact hm ha

theorem addBoxes_keys (l : List (String × List Box)) (img : String) (bs : List Box) :
    (addBoxes l img bs).map Prod.fst =
      if img ∈ l.map Prod.fst then l.map Prod.fst else l.map Prod.fst ++ [img] := by
  induction l with
  | nil => simp [addBoxes]
  | cons p rest ih =>
      obtain ⟨k, v⟩ := p
      by_cases hk : k = img
      · subst hk
        simp [addBoxes]
      · simp only [addBoxes, if_neg hk, List.map_cons]
        rw [ih]
        by_cases hm : img ∈ rest.map Prod.fst
        · rw [if_pos hm, if_pos (by simp [hm])]
        · rw [if_neg hm, if_neg (by simp [hm, Ne.symm hk])]
          simp

theorem addBoxes_keys_nodup (l : List (String × List Box)) (img : String) (bs : List Box)
    (h : (l.map Prod.fst).Nodup) : ((addBoxes l img bs).map Prod.fst).Nodup := by
  rw [addBoxes_keys]
  by_cases hm : img ∈ l.map Prod.fst
  · rwa [if_pos hm]
  · rw [if_neg hm]
    refine List.Nodup.append h (List.nodup_singleton img) ?_
    intro a ha hb
    simp only [List.mem_singleton] at hb
    subst hb
    exact hm ha

theorem dget_eq_none_iff {A : Type} (l : List (String × A)) (k : String) :
    dget l k = none ↔ k ∉ l.map Prod.fst := by
  induction l with
  | nil => simp [dget]
  | cons p rest ih =>
      obtain ⟨k', v⟩ := p
      by_cases hk : k' = k
      · subst hk
        simp [dget]
      · simp [dget, hk, ih, Ne.symm hk]

theorem dget_addBoxes (l : List (String × List Box)) (img k : String) (bs : List Box) :
    dget (addBoxes l img bs) k =
      if k = img then some (dgetBoxes l img ++ bs) else dget l k := by
  induction l with
  | nil =>
      by_cases hk : k = img
      · subst hk
        simp [addBoxes, dget, dgetBoxes]
      · simp [addBoxes, dget, dgetBoxes, hk, Ne.symm hk]
  | cons p rest ih =>
      obtain ⟨k', v⟩ := p
      by_cases hk' : k' = img
      · subst hk'
        by_cases hk : k = k'
        · subst hk
          simp [addBoxes, dget, dgetBoxes]
        · simp [addBoxes, dget, dgetBoxes, hk, Ne.symm hk]
      · by_cases hk : k = k'
        · subst hk
          have hki : ¬ k = img := hk'
          simp [addBoxes, dget, dgetBoxes, hk', hki]
        · simp only [addBoxes, if_neg hk', dget, if_neg (Ne.symm hk), ih]
          by_cases hki : k = img
          · subst hki
            simp [dgetBoxes, dget, if_neg (Ne.symm hk), hk']
          · simp [hki]

theorem dgetBoxes_addBoxes (l : List (String × List Box)) (img k : String) (bs : List Box) :
    dgetBoxes (addBoxes l img bs) k =
      if k = img then dgetBoxes l img ++ bs else dgetBoxes l k := by
  unfold dgetBoxes
  rw [dget_addBoxes]
  by_cases hk : k = img <;> simp [hk, dgetBoxes]

/-! ## Helper lemmas: the collector decomposes per class -/

theorem zip_self_map {A B : Type} (l : List A) (g : A → B) :
    l.zip (l.map g) = l.map (fun a => (a, g a)) := by
  induction l with
  | nil => rfl
  | cons a rest ih => simp [ih]

theorem stepRow_map (skip : List String) (needed : Nat) (specs : List ClassSpec)
    (g : ClassSpec → ClassState) (r : Row) :
    stepRow skip needed specs (specs.map g) r =
      specs.map (fun sp => if r.img ∈ skip then g sp else stepClass needed sp (g sp) r) := by
  unfold stepRow
  by_cases hs : r.img ∈ skip
  · simp [hs]
  · simp only [if_neg hs, zip_self_map, List.map_map]
    rfl

theorem runCollector_from_map (skip : List String) (needed : Nat) (specs : List ClassSpec) :
    ∀ (rows : List Row) (g : ClassSpec → ClassState),
      rows.foldl (stepRow skip needed specs) (specs.map g) =
        specs.map (fun sp => runClassFrom skip needed sp (g sp) rows) := by
  intro rows
  induction rows with
  | nil => intro g; simp [runClassFrom]
  | cons r rest ih =>
      intro g
      simp only [List.foldl_cons, stepRow_map]
      rw [ih]
      rfl

theorem runCollector_eq (skip : List String) (needed : Nat) (specs : List ClassSpec)
    (rows : List Row) :
    runCollector skip needed specs rows =
      specs.map (fun sp => runClass skip needed sp rows) := by
  unfold runCollector initStates runClass
  exact runCollector_from_map skip needed specs rows _

/-! ## Helper lemmas: quota invariant for a single class -/

theorem pushNew_take_of_lt (acc : List String) (x : String) (needed : Nat)
    (h : acc.length < needed) : (pushNew acc x).take needed = pushNew acc x := by
  unfold pushNew
  by_cases hm : x ∈ acc
  · rw [if_pos hm]
    exact List.take_of_length_le (Nat.le_of_lt h)
  · rw [if_neg hm]
    apply List.take_of_length_le
    simp only [List.length_append, List.length_singleton]
    omega

theorem pushNew_take_of_ge (acc : List String) (x : String) (needed : Nat)
    (h : needed ≤ acc.length) : (pushNew acc x).take needed = acc.take needed := by
  unfold pushNew
  by_cases hm : x ∈ acc
  · rw [if_pos hm]
  · rw [if_neg hm]
    exact List.take_append_of_le_length h

theorem collect_inv (skip : List String) (needed : Nat) (sp : ClassSpec)
    (h1 : 1 ≤ needed) :
    ∀ (rows : List Row) (st : ClassState) (acc : List String),
      st.groups.map Prod.fst = acc.take needed →
      st.unfilled = decide (st.groups.length < needed) →
      (runClassFrom skip needed sp st rows).groups.map Prod.fst
          = (seenFrom skip sp acc rows).take needed ∧
      (runClassFrom skip needed sp st rows).unfilled
          = decide ((runClassFrom skip needed sp st rows).groups.length < needed) := by
  intro rows
  induction rows with
  | nil =>
      intro st acc hkeys hun
      exact ⟨hkeys, hun⟩
  | cons r rest ih =>
      intro st acc hkeys hun
      by_cases hs : r.img ∈ skip
      · have e1 : runClassFrom skip needed sp st (r :: rest)
            = runClassFrom skip needed sp st rest := by
          simp [runClassFrom, hs]
        have e2 : seenFrom skip sp acc (r :: rest) = seenFrom skip sp acc rest := by
          simp [seenFrom, hs]
        rw [e1, e2]
        exact ih st acc hkeys hun
      · by_cases hc : r.cls ∈ sp.idSet
        · have e2 : seenFrom skip sp acc (r :: rest)
              = seenFrom skip sp (pushNew acc r.img) rest := by
            simp [seenFrom, hs, hc]
          by_cases hu : st.unfilled = true
          · -- the class is still collecting: the box is appended
            have hlen : st.groups.length < needed := by
              rw [hun] at hu
              exact of_decide_eq_true hu
            have hacc : acc.length < needed := by
              have := congrArg List.length hkeys
              simp only [List.length_map, List.length_take] at this
              omega
            have hacc' : acc.take needed = acc :=
              List.take_of_length_le (Nat.le_of_lt hacc)
            rw [hacc'] at hkeys
            have e1 : runClassFrom skip needed sp st (r :: rest)
                = runClassFrom skip needed sp
                    { groups := insertBox st.groups r.img (mkBox sp.name r),
                      unfilled :=
                        decide ((insertBox st.groups r.img (mkBox sp.name r)).length
                          < needed) } rest := by
              simp [runClassFrom, hs, stepClass, hu, hc]
            rw [e1, e2]
            apply ih
            · rw [insertBox_keys, hkeys, pushNew_take_of_lt acc r.img needed hacc]
              rfl
            · rfl
          · -- the class is already filled: the row is ignored for it
            have hu' : st.unfilled = false := by
              cases h : st.unfilled
              · rfl
              · exact absurd h hu
            have hlen : needed ≤ st.groups.length := by
              rw [hun] at hu'
              have := of_decide_eq_false hu'
              omega
            have hacc : needed ≤ acc.length := by
              have := congrArg List.length hkeys
              simp only [List.length_map, List.length_take] at this
              omega
            have e1 : runClassFrom skip needed sp st (r :: rest)
                = runClassFrom skip needed sp st rest := by
              simp [runClassFrom, hs, stepClass, hu']
            rw [e1, e2]
            apply ih
            · rw [hkeys, pushNew_take_of_ge acc r.img needed hacc]
            · exact hun
        · have e1 : runClassFrom skip needed sp st (r :: rest)
              = runClassFrom skip needed sp st rest := by
            simp [runClassFrom, hs, stepClass, hc]
          have e2 : seenFrom skip sp acc (r :: rest) = seenFrom skip sp acc rest := by
            simp [seenFrom, hs, hc]
          rw [e1, e2]
          exact ih st acc hkeys hun

theorem runClass_keys (skip : List String) (needed : Nat) (sp : ClassSpec)
    (rows : List Row) (h1 : 1 ≤ needed) :
    (runClass skip needed sp rows).groups.map Prod.fst
      = (seenImgs skip sp rows).take needed := by
  have h := collect_inv skip needed sp h1 rows { groups := [], unfilled := true } []
    (by simp) (by simp [decide_eq_true_eq]; omega)
  exact h.1

theorem runClass_unfilled_eq (skip : List String) (needed : Nat) (sp : ClassSpec)
    (rows : List Row) (h1 : 1 ≤ needed) :
    (runClass skip needed sp rows).unfilled
      = decide ((runClass skip needed sp rows).groups.length < needed) := by
  have h := collect_inv skip needed sp h1 rows { groups := [], unfilled := true } []
    (by simp) (by simp [decide_eq_true_eq]; omega)
  exact h.2

theorem runClass_length (skip : List String) (needed : Nat) (sp : ClassSpec)
    (rows : List Row) (h1 : 1 ≤ needed) :
    (runClass skip needed sp rows).groups.length
      = min needed (seenImgs skip sp rows).length := by
  have h := congrArg List.length (runClass_keys skip needed sp rows h1)
  simp only [List.length_map, List.length_take] at h
  exact h

/-! ## Helper lemmas: filled classes freeze -/

theorem stepClass_filled (needed : Nat) (sp : ClassSpec) (st : ClassState) (r : Row)
    (h : st.unfilled = false) : stepClass needed sp st r = st := by
  unfold stepClass
  rw [if_neg]
  intro hcon
  rw [h] at hcon
  exact Bool.false_ne_true hcon.1

theorem runClassFrom_filled (skip : List String) (needed : Nat) (sp : ClassSpec) :
    ∀ (rows : List Row) (st : ClassState), st.unfilled = false →
      runClassFrom skip needed sp st rows = st := by
  intro rows
  induction rows with
  | nil => intro st h; rfl
  | cons r rest ih =>
      intro st h
      by_cases hs : r.img ∈ skip
      · have e1 : runClassFrom skip needed sp st (r :: rest)
            = runClassFrom skip needed sp st rest := by simp [runClassFrom, hs]
        rw [e1]
        exact ih st h
      · have e1 : runClassFrom skip needed sp st (r :: rest)
            = runClassFrom skip needed sp (stepClass needed sp st r) rest := by
          simp [runClassFrom, hs]
        rw [e1, stepClass_filled needed sp st r h]
        exact ih st h

theorem runClass_freeze (skip : List String) (needed : Nat) (sp : ClassSpec)
    (p rest : List Row) (h : (runClass skip needed sp p).unfilled = false) :
    runClass skip needed sp (p ++ rest) = runClass skip needed sp p := by
  unfold runClass runClassFrom
  rw [List.foldl_append]
  exact runClassFrom_filled skip needed sp rest _ h

/-! ## Helper lemmas: runs with a larger capacity extend runs with a smaller one -/

theorem groupsLE_refl (A : List (String × List Box)) : GroupsLE A A := by
  constructor
  · exact List.prefix_refl _
  · intro p hp
    exact ⟨p.2, hp, List.prefix_refl _⟩

theorem groupsLE_trans {A B C : List (String × List Box)}
    (h1 : GroupsLE A B) (h2 : GroupsLE B C) : GroupsLE A C := by
  constructor
  · exact h1.1.trans h2.1
  · intro p hp
    obtain ⟨v, hv, hpre⟩ := h1.2 p hp
    obtain ⟨w, hw, hpre'⟩ := h2.2 (p.1, v) hv
    exact ⟨w, hw, hpre.trans hpre'⟩

theorem groupsLE_insertBox (A : List (String × List Box)) (img : String) (b : Box) :
    GroupsLE A (insertBox A img b) := by
  constructor
  · rw [insertBox_keys]
    by_cases hm : img ∈ A.map Prod.fst
    · rw [if_pos hm]
    · rw [if_neg hm]
      exact List.prefix_append _ _
  · intro p hp
    obtain ⟨pk, pv⟩ := p
    induction A with
    | nil => cases hp
    | cons q rest ih =>
        obtain ⟨k, v⟩ := q
        by_cases hk : k = img
        · subst hk
          rcases List.mem_cons.mp hp with h | h
          · rw [Prod.mk.injEq] at h
            obtain ⟨h1, h2⟩ := h
            subst h1
            subst h2
            exact ⟨pv ++ [b], by simp [insertBox], List.prefix_append _ _⟩
          · exact ⟨pv, by simp [insertBox, h], List.prefix_refl _⟩
        · rcases List.mem_cons.mp hp with h | h
          · rw [Prod.mk.injEq] at h
            obtain ⟨h1, h2⟩ := h
            subst h1
            subst h2
            exact ⟨pv, by simp [insertBox, hk], List.prefix_refl _⟩
          · obtain ⟨v', hv', hpre⟩ := ih h
            exact ⟨v', by simp [insertBox, hk, hv'], hpre⟩

theorem simInv_groupsLE {st st' : ClassState} (h : SimInv st st') :
    GroupsLE st.groups st'.groups := by
  rcases h with ⟨_, rfl⟩ | ⟨_, h⟩
  · exact groupsLE_refl _
  · exact h

theorem simInv_step (needed needed' : Nat) (sp : ClassSpec) (r : Row)
    (hle : needed ≤ needed') {st st' : ClassState} (hsim : SimInv st st') :
    SimInv (stepClass needed sp st r) (stepClass needed' sp st' r) := by
  rcases hsim with ⟨hu, rfl⟩ | ⟨hu, hg⟩
  · by_cases hc : r.cls ∈ sp.idSet
    · have e1 : stepClass needed sp st r =
          { groups := insertBox st.groups r.img (mkBox sp.name r),
            unfilled :=
              decide ((insertBox st.groups r.img (mkBox sp.name r)).length < needed) } := by
        simp [stepClass, hu, hc]
      have e2 : stepClass needed' sp st r =
          { groups := insertBox st.groups r.img (mkBox sp.name r),
            unfilled :=
              decide ((insertBox st.groups r.img (mkBox sp.name r)).length < needed') } := by
        simp [stepClass, hu, hc]
      rw [e1, e2]
      by_cases hlt : (insertBox st.groups r.img (mkBox sp.name r)).length < needed
      · left
        constructor
        · simp [hlt]
        · have : (insertBox st.groups r.img (mkBox sp.name r)).length < needed' :=
            Nat.lt_of_lt_of_le hlt hle
          simp [hlt, this]
      · right
        constructor
        · simp [hlt]
        · exact groupsLE_refl _
    · have e1 : stepClass needed sp st r = st := by
        simp [stepClass, hc]
      have e2 : stepClass needed' sp st r = st := by
        simp [stepClass, hc]
      rw [e1, e2]
      left
      exact ⟨hu, rfl⟩
  · rw [stepClass_filled needed sp st r hu]
    right
    refine ⟨hu, ?_⟩
    unfold stepClass
    by_cases hcond : st'.unfilled = true ∧ r.cls ∈ sp.idSet
    · rw [if_pos hcond]
      exact groupsLE_trans hg (groupsLE_insertBox _ _ _)
    · rw [if_neg hcond]
      exact hg

theorem runClass_sim (skip : List String) (needed needed' : Nat) (sp : ClassSpec)
    (hle : needed ≤ needed') :
    ∀ (rows : List Row) {st st' : ClassState}, SimInv st st' →
      SimInv (runClassFrom skip needed sp st rows)
        (runClassFrom skip needed' sp st' rows) := by
  intro rows
  induction rows with
  | nil => intro st st' h; exact h
  | cons r rest ih =>
      intro st st' h
      by_cases hs : r.img ∈ skip
      · have e1 : runClassFrom skip needed sp st (r :: rest)
            = runClassFrom skip needed sp st rest := by simp [runClassFrom, hs]
        have e2 : runClassFrom skip needed' sp st' (r :: rest)
            = runClassFrom skip needed' sp st' rest := by simp [runClassFrom, hs]
        rw [e1, e2]
        exact ih h
      · have e1 : runClassFrom skip needed sp st (r :: rest)
            = runClassFrom skip needed sp (stepClass needed sp st r) rest := by
          simp [runClassFrom, hs]
        have e2 : runClassFrom skip needed' sp st' (r :: rest)
            = runClassFrom skip needed' sp (stepClass needed' sp st' r) rest := by
          simp [runClassFrom, hs]
        rw [e1, e2]
        exact ih (simInv_step needed needed' sp r hle h)

theorem runClass_groupsLE (skip : List String) (needed needed' : Nat) (sp : ClassSpec)
    (rows : List Row) (hle : needed ≤ needed') :
    GroupsLE (runClass skip needed sp rows).groups
      (runClass skip needed' sp rows).groups := by
  apply simInv_groupsLE
  apply runClass_sim skip needed needed' sp hle rows
  left
  exact ⟨rfl, rfl⟩

/-! ## Helper lemmas: trimming and merging -/

theorem lastSlice_suffix (n : Nat) (l : List (String × List Box)) :
    lastSlice n l <:+ l := by
  unfold lastSlice
  by_cases hn : n = 0
  · rw [if_pos hn]
  · rw [if_neg hn]
    exact List.drop_suffix _ _

theorem lastSlice_length (n : Nat) (l : List (String × List Box)) (hn : 1 ≤ n) :
    (lastSlice n l).length = min n l.length := by
  unfold lastSlice
  rw [if_neg (by omega)]
  rw [List.length_drop]
  omega

theorem lastSlice_keys_nodup (n : Nat) (l : List (String × List Box))
    (h : (l.map Prod.fst).Nodup) : ((lastSlice n l).map Prod.fst).Nodup := by
  have hsub : (lastSlice n l).Sublist l := (lastSlice_suffix n l).sublist
  exact List.Sublist.nodup (List.Sublist.map Prod.fst hsub) h

theorem runClassFrom_keys_nodup (skip : List String) (needed : Nat) (sp : ClassSpec) :
    ∀ (rows : List Row) (st : ClassState), (st.groups.map Prod.fst).Nodup →
      ((runClassFrom skip needed sp st rows).groups.map Prod.fst).Nodup := by
  intro rows
  induction rows with
  | nil => intro st h; exact h
  | cons r rest ih =>
      intro st h
      by_cases hs : r.img ∈ skip
      · have e1 : runClassFrom skip needed sp st (r :: rest)
            = runClassFrom skip needed sp st rest := by simp [runClassFrom, hs]
        rw [e1]
        exact ih st h
      · have e1 : runClassFrom skip needed sp st (r :: rest)
            = runClassFrom skip needed sp (stepClass needed sp st r) rest := by
          simp [runClassFrom, hs]
        rw [e1]
        apply ih
        unfold stepClass
        by_cases hcond : st.unfilled = true ∧ r.cls ∈ sp.idSet
        · rw [if_pos hcond]
          exact insertBox_keys_nodup _ _ _ h
        · rw [if_neg hcond]
          exact h

theorem runClass_keys_nodup (skip : List String) (needed : Nat) (sp : ClassSpec)
    (rows : List Row) :
    ((runClass skip needed sp rows).groups.map Prod.fst).Nodup :=
  runClassFrom_keys_nodup skip needed sp rows _ (by simp)

theorem mergeBatch_keys_nodup (batch acc : List (String × List Box))
    (h : (acc.map Prod.fst).Nodup) :
    ((mergeBatch acc batch).map Prod.fst).Nodup := by
  induction batch generalizing acc with
  | nil => exact h
  | cons p rest ih =>
      have e : mergeBatch acc (p :: rest) = mergeBatch (addBoxes acc p.1 p.2) rest := rfl
      rw [e]
      exact ih _ (addBoxes_keys_nodup _ _ _ h)

theorem mergeBatch_mem_keys (batch acc : List (String × List Box)) (k : String) :
    (k ∈ acc.map Prod.fst ∨ k ∈ batch.map Prod.fst) →
      k ∈ (mergeBatch acc batch).map Prod.fst := by
  induction batch generalizing acc with
  | nil =>
      intro h
      rcases h with h | h
      · exact h
      · cases h
  | cons p rest ih =>
      intro h
      have e : mergeBatch acc (p :: rest) = mergeBatch (addBoxes acc p.1 p.2) rest := rfl
      rw [e]
      have hmem : k ∈ acc.map Prod.fst ∨ k = p.1 →
          k ∈ (addBoxes acc p.1 p.2).map Prod.fst := by
        intro hh
        rw [addBoxes_keys]
        by_cases hm : p.1 ∈ acc.map Prod.fst
        · rw [if_pos hm]
          rcases hh with hh | hh
          · exact hh
          · rw [hh]; exact hm
        · rw [if_neg hm]
          rcases hh with hh | hh
          · exact List.mem_append_left _ hh
          · rw [hh]; exact List.mem_append_right _ (List.mem_singleton_self _)
      rcases h with h | h
      · exact ih _ (Or.inl (hmem (Or.inl h)))
      · rcases List.mem_cons.mp h with h | h
        · exact ih _ (Or.inl (hmem (Or.inr h)))
        · exact ih _ (Or.inr h)

theorem mergeBatch_boxes (batch acc : List (String × List Box)) (k : String)
    (h : (batch.map Prod.fst).Nodup) :
    dgetBoxes (mergeBatch acc batch) k = dgetBoxes acc k ++ dgetBoxes batch k := by
  induction batch generalizing acc with
  | nil => simp [mergeBatch, dgetBoxes, dget]
  | cons p rest ih =>
      obtain ⟨k0, v0⟩ := p
      have e : mergeBatch acc ((k0, v0) :: rest) = mergeBatch (addBoxes acc k0 v0) rest := rfl
      rw [e]
      simp only [List.map_cons, List.nodup_cons] at h
      rw [ih _ h.2, dgetBoxes_addBoxes]
      by_cases hk : k = k0
      · subst hk
        have hrest : dgetBoxes rest k = [] := by
          unfold dgetBoxes
          rw [(dget_eq_none_iff rest k).mpr h.1]
          rfl
        rw [if_pos rfl, hrest]
        have hhead : dgetBoxes ((k, v0) :: rest) k = v0 := by
          simp [dgetBoxes, dget]
        rw [hhead]
        simp
      · rw [if_neg hk]
        have hhead : dgetBoxes ((k0, v0) :: rest) k = dgetBoxes rest k := by
          simp [dgetBoxes, dget, Ne.symm hk]
        rw [hhead]

theorem foldl_merge_boxes (batches : List (List (String × List Box)))
    (k : String) :
    ∀ acc, (∀ b ∈ batches, (b.map Prod.fst).Nodup) →
      dgetBoxes (batches.foldl mergeBatch acc) k
        = dgetBoxes acc k ++ (batches.map (fun b => dgetBoxes b k)).flatten := by
  induction batches with
  | nil => intro acc _; simp [dgetBoxes]
  | cons b rest ih =>
      intro acc h
      simp only [List.foldl_cons, List.map_cons, List.flatten_cons]
      rw [ih _ (fun b' hb' => h b' (List.mem_cons_of_mem _ hb'))]
      rw [mergeBatch_boxes b acc k (h b (List.mem_cons_self _ _))]
      rw [List.append_assoc]

theorem foldl_merge_keys_nodup (batches : List (List (String × List Box))) :
    ∀ acc, (acc.map Prod.fst).Nodup →
      ((batches.foldl mergeBatch acc).map Prod.fst).Nodup := by
  induction batches with
  | nil => intro acc h; exact h
  | cons b rest ih =>
      intro acc h
      simp only [List.foldl_cons]
      exact ih _ (mergeBatch_keys_nodup b acc h)

theorem foldl_merge_mem_keys (batches : List (List (String × List Box)))
    (k : String) :
    ∀ acc, (k ∈ acc.map Prod.fst ∨ ∃ b ∈ batches, k ∈ b.map Prod.fst) →
      k ∈ (batches.foldl mergeBatch acc).map Prod.fst := by
  induction batches with
  | nil =>
      intro acc h
      rcases h with h | ⟨b, hb, _⟩
      · exact h
      · cases hb
  | cons b rest ih =>
      intro acc h
      simp only [List.foldl_cons]
      rcases h with h | ⟨b', hb', hk⟩
      · exact ih _ (Or.inl (mergeBatch_mem_keys b acc k (Or.inl h)))
      · rcases List.mem_cons.mp hb' with hb | hb
        · subst hb
          exact ih _ (Or.inl (mergeBatch_mem_keys b' acc k (Or.inr hk)))
        · exact ih _ (Or.inr ⟨b', hb, hk⟩)

/-- The collector cell rewritten through its per-class decomposition. -/
theorem collectBbs_eq (skip : List String) (nPerClass offset : Nat)
    (specs : List ClassSpec) (rows : List Row) :
    collectBbs skip nPerClass offset specs rows =
      (specs.map (fun sp =>
        lastSlice nPerClass
          (runClass skip (nPerClass * (offset + 1)) sp rows).groups)).foldl
        mergeBatch [] := by
  unfold collectBbs
  simp only []
  rw [runCollector_eq, zip_self_map]
  rw [List.foldl_map, List.foldl_map]

/-! ## Helper lemmas: once every class is filled the stream tail is inert -/

theorem runCollector_freeze (skip : List String) (needed : Nat)
    (specs : List ClassSpec) (p rest : List Row)
    (h : ∀ st ∈ runCollector skip needed specs p, st.unfilled = false) :
    runCollector skip needed specs (p ++ rest) = runCollector skip needed specs p := by
  rw [runCollector_eq, runCollector_eq]
  apply List.map_congr_left
  intro sp hsp
  apply runClass_freeze
  apply h
  rw [runCollector_eq]
  exact List.mem_map_of_mem _ hsp

theorem collectBbs_freeze (skip : List String) (nPerClass offset : Nat)
    (specs : List ClassSpec) (p rest : List Row)
    (h : ∀ st ∈ runCollector skip (nPerClass * (offset + 1)) specs p,
      st.unfilled = false) :
    collectBbs skip nPerClass offset specs (p ++ rest)
      = collectBbs skip nPerClass offset specs p := by
  rw [collectBbs_eq, collectBbs_eq]
  congr 1
  apply List.map_congr_left
  intro sp hsp
  rw [runClass_freeze skip (nPerClass * (offset + 1)) sp p rest]
  apply h
  rw [runCollector_eq]
  exact List.mem_map_of_mem _ hsp

/-! ## Helper lemmas: Python dict operations -/

theorem dset_not_mem {A : Type} (l : List (String × A)) (k : String) (v : A)
    (h : k ∉ l.map Prod.fst) : dset l k v = l ++ [(k, v)] := by
  induction l with
  | nil => rfl
  | cons p rest ih =>
      simp only [List.map_cons, List.mem_cons] at h
      push_neg at h
      obtain ⟨h1, h2⟩ := h
      simp only [dset]
      rw [if_neg (fun hh => h1 hh.symm), ih h2]
      simp

theorem foldl_dset_nodup {A : Type} :
    ∀ (ps acc : List (String × A)), (((acc ++ ps).map Prod.fst)).Nodup →
      ps.foldl (fun a p => dset a p.1 p.2) acc = acc ++ ps := by
  intro ps
  induction ps with
  | nil => intro acc _; simp
  | cons p rest ih =>
      intro acc h
      simp only [List.foldl_cons]
      have hk : p.1 ∉ acc.map Prod.fst := by
        intro hmem
        rw [List.map_append, List.nodup_append] at h
        exact h.2.2 hmem (by simp)
      rw [dset_not_mem _ _ _ hk]
      rw [ih (acc ++ [p]) (by rwa [List.append_assoc, List.singleton_append])]
      simp

theorem dictOf_nodup {A : Type} (ps : List (String × A))
    (h : (ps.map Prod.fst).Nodup) : dictOf ps = ps := by
  unfold dictOf
  have := foldl_dset_nodup ps [] (by simpa using h)
  simpa using this

theorem dget_map_lower_some (l : List String) (key : String) (n0 : String)
    (h : dget (l.map (fun n => ((strLower n), n))) key = some n0) :
    n0 ∈ l ∧ (strLower n0) = key := by
  induction l with
  | nil => cases h
  | cons a rest ih =>
      simp only [List.map_cons, dget] at h
      by_cases ha : (strLower a) = key
      · rw [if_pos ha] at h
        cases h
        exact ⟨List.mem_cons_self _ _, ha⟩
      · rw [if_neg ha] at h
        obtain ⟨h1, h2⟩ := ih h
        exact ⟨List.mem_cons_of_mem _ h1, h2⟩

theorem dget_map_lower_none (l : List String) (key : String)
    (h : dget (l.map (fun n => ((strLower n), n))) key = none) :
    ∀ n ∈ l, (strLower n) ≠ key := by
  induction l with
  | nil => intro n hn; cases hn
  | cons a rest ih =>
      simp only [List.map_cons, dget] at h
      by_cases ha : (strLower a) = key
      · rw [if_pos ha] at h
        cases h
      · rw [if_neg ha] at h
        intro n hn
        rcases List.mem_cons.mp hn with hn | hn
        · subst hn; exact ha
        · exact ih h n hn

theorem ddel_map_lower (l : List String) (key : String) :
    ddel (l.map (fun n => ((strLower n), n))) key
      = (l.filter (fun n => decide ((strLower n) ≠ key))).map (fun n => ((strLower n), n)) := by
  induction l with
  | nil => rfl
  | cons a rest ih =>
      simp only [List.map_cons, ddel]
      by_cases ha : (strLower a) = key
      · rw [if_pos ha, ih, List.filter_cons]
        rw [if_neg (by simp [ha])]
      · rw [if_neg ha, ih, List.filter_cons]
        rw [if_pos (by simp [ha])]
        simp

theorem dset_map_eq (names : List String) (f : String → Option String)
    (n0 : String) (v : Option String) (hnd : names.Nodup) (hmem : n0 ∈ names) :
    dset (names.map (fun n => (n, f n))) n0 v
      = names.map (fun n => (n, if n = n0 then v else f n)) := by
  induction names with
  | nil => cases hmem
  | cons a rest ih =>
      simp only [List.map_cons, dset]
      rcases List.mem_cons.mp hmem with h | h
      · subst h
        rw [if_pos rfl, if_pos rfl]
        congr 1
        apply List.map_congr_left
        intro n hn
        have hne : ¬ n = n0 := by
          intro hh
          subst hh
          exact (List.nodup_cons.mp hnd).1 hn
        rw [if_neg hne]
      · have ha : ¬ a = n0 := by
          intro hh
          subst hh
          exact (List.nodup_cons.mp hnd).1 h
        rw [if_neg ha, if_neg ha, ih (List.nodup_cons.mp hnd).2 h]

/-! ## Helper lemmas: the resolver loop invariant -/

theorem firstMatch_append_some (x : String) (p q : List (String × String))
    (v : String) (h : firstMatch x p = some v) :
    firstMatch x (p ++ q) = some v := by
  induction p with
  | nil => cases h
  | cons row rest ih =>
      simp only [firstMatch] at h ⊢
      by_cases hr : (strLower row.2) = x
      · rw [if_pos hr] at h ⊢; exact h
      · rw [if_neg hr] at h ⊢; exact ih h

theorem firstMatch_append_none (x : String) (p q : List (String × String))
    (h : firstMatch x p = none) :
    firstMatch x (p ++ q) = firstMatch x q := by
  induction p with
  | nil => rfl
  | cons row rest ih =>
      simp only [firstMatch] at h ⊢
      by_cases hr : (strLower row.2) = x
      · rw [if_pos hr] at h; cases h
      · rw [if_neg hr] at h ⊢; exact ih h

theorem firstMatch_single (x : String) (row : String × String) :
    firstMatch x [row] = if (strLower row.2) = x then some row.1 else none := rfl

theorem map_fst_pair_none (names : List String) :
    (names.map (fun s => (s, (none : Option String)))).map Prod.fst = names := by
  induction names with
  | nil => rfl
  | cons a rest ih =>
      simp only [List.map_cons]
      rw [ih]

theorem map_fst_pair_lower (names : List String) :
    (names.map (fun s => ((strLower s), s))).map Prod.fst = names.map strLower := by
  induction names with
  | nil => rfl
  | cons a rest ih =>
      simp only [List.map_cons]
      rw [ih]

theorem initResolveState_inv (names : List String)
    (hnd : (names.map strLower).Nodup) :
    ResolveInv names [] (initResolveState names) := by
  have hnames : names.Nodup := List.Nodup.of_map _ hnd
  constructor
  · unfold initResolveState
    rw [dictOf_nodup (names.map (fun s => (s, (none : Option String))))
      (by rw [map_fst_pair_none]; exact hnames)]
    rfl
  · unfold initResolveState
    have e3 : List.filter
        (fun n => (firstMatch (strLower n) ([] : List (String × String))).isNone) names
        = names := List.filter_eq_self.mpr (fun n _ => rfl)
    rw [dictOf_nodup (names.map (fun s => ((strLower s), s)))
      (by rw [map_fst_pair_lower]; exact hnd)]
    rw [e3]

theorem resolveLoop_inv (names : List String)
    (hnd : (names.map strLower).Nodup) :
    ∀ (q p : List (String × String)) (st : ResolveState),
      ResolveInv names p st → ResolveInv names (p ++ q) (resolveLoop st q) := by
  have hnames : names.Nodup := List.Nodup.of_map _ hnd
  intro q
  induction q with
  | nil =>
      intro p st h
      rw [List.append_nil]
      exact h
  | cons row rest ih =>
      intro p st h
      obtain ⟨hroot, hnf⟩ := h
      rw [List.append_cons]
      cases hd : dget st.notFound (strLower row.2) with
      | none =>
          have e : resolveLoop st (row :: rest) = resolveLoop st rest := by
            simp only [resolveLoop, hd]
          rw [e]
          apply ih
          have hd' : dget ((names.filter (fun n => (firstMatch (strLower n) p).isNone)).map
              (fun n => ((strLower n), n))) (strLower row.2) = none := by
            rw [← hnf]; exact hd
          have hnone := dget_map_lower_none _ _ hd'
          constructor
          · rw [hroot]
            apply List.map_congr_left
            intro n hn
            congr 1
            cases hfm : firstMatch (strLower n) p with
            | some v => rw [firstMatch_append_some _ _ _ _ hfm]
            | none =>
                rw [firstMatch_append_none _ _ _ hfm, firstMatch_single]
                rw [if_neg ?_]
                intro hh
                refine hnone n ?_ hh.symm
                refine List.mem_filter.mpr ⟨hn, ?_⟩
                rw [hfm]
                rfl
          · rw [hnf]
            congr 1
            apply List.filter_congr
            intro n hn
            show (firstMatch (strLower n) p).isNone
                = (firstMatch (strLower n) (p ++ [row])).isNone
            cases hfm : firstMatch (strLower n) p with
            | some v => rw [firstMatch_append_some _ _ _ _ hfm]
            | none =>
                have hne : ¬ (strLower row.2) = (strLower n) := by
                  intro hh
                  refine hnone n ?_ hh.symm
                  refine List.mem_filter.mpr ⟨hn, ?_⟩
                  rw [hfm]
                  rfl
                rw [firstMatch_append_none _ _ _ hfm, firstMatch_single,
                  if_neg hne]
      | some n0 =>
          have hd' : dget ((names.filter (fun n => (firstMatch (strLower n) p).isNone)).map
              (fun n => ((strLower n), n))) (strLower row.2) = some n0 := by
            rw [← hnf]; exact hd
          obtain ⟨hmemf, hlow⟩ := dget_map_lower_some _ _ _ hd'
          have hmemn : n0 ∈ names := (List.mem_filter.mp hmemf).1
          have hn0none : firstMatch (strLower n0) p = none := by
            have hb := (List.mem_filter.mp hmemf).2
            cases hfm : firstMatch (strLower n0) p with
            | none => rfl
            | some v => rw [hfm] at hb; cases hb
          have e : resolveLoop st (row :: rest) =
              (if (ddel st.notFound (strLower row.2)).isEmpty then
                ({ rootIds := dset st.rootIds n0 (some row.1),
                   notFound := ddel st.notFound (strLower row.2) } : ResolveState)
              else resolveLoop
                { rootIds := dset st.rootIds n0 (some row.1),
                  notFound := ddel st.notFound (strLower row.2) } rest) := by
            simp only [resolveLoop, hd]
          have hinv' : ResolveInv names (p ++ [row])
              { rootIds := dset st.rootIds n0 (some row.1),
                notFound := ddel st.notFound (strLower row.2) } := by
            constructor
            · show dset st.rootIds n0 (some row.1) = _
              rw [hroot, dset_map_eq names _ n0 (some row.1) hnames hmemn]
              apply List.map_congr_left
              intro n hn
              congr 1
              by_cases hne : n = n0
              · subst hne
                rw [if_pos rfl]
                rw [firstMatch_append_none _ _ _ hn0none, firstMatch_single]
                rw [if_pos hlow.symm]
              · rw [if_neg hne]
                cases hfm : firstMatch (strLower n) p with
                | some v => rw [firstMatch_append_some _ _ _ _ hfm]
                | none =>
                    rw [firstMatch_append_none _ _ _ hfm, firstMatch_single]
                    rw [if_neg ?_]
                    intro hh
                    apply hne
                    apply List.inj_on_of_nodup_map hnd hn hmemn
                    exact (hlow.trans hh).symm
            · show ddel st.notFound (strLower row.2) = _
              rw [hnf, ddel_map_lower, List.filter_filter]
              congr 1
              apply List.filter_congr
              intro n hn
              show (decide ((strLower n) ≠ (strLower row.2))
                    && (firstMatch (strLower n) p).isNone)
                  = (firstMatch (strLower n) (p ++ [row])).isNone
              cases hfm : firstMatch (strLower n) p with
              | some v =>
                  rw [firstMatch_append_some _ _ _ _ hfm]
                  simp
              | none =>
                  rw [firstMatch_append_none _ _ _ hfm, firstMatch_single]
                  by_cases hc : (strLower row.2) = (strLower n)
                  · rw [if_pos hc]
                    have hne : ¬ (strLower n) ≠ (strLower row.2) := by
                      intro hh; exact hh hc.symm
                    simp [hne]
                  · rw [if_neg hc]
                    have hne : (strLower n) ≠ (strLower row.2) := fun hh => hc hh.symm
                    simp [hne]
          rw [e]
          by_cases hb : (ddel st.notFound (strLower row.2)).isEmpty = true
          · rw [if_pos hb]
            have hfil : names.filter
                (fun n => (firstMatch (strLower n) (p ++ [row])).isNone) = [] := by
              have h2 := hinv'.2
              rw [List.isEmpty_iff] at hb
              rw [hb] at h2
              exact (List.map_eq_nil.mp h2.symm)
            have hall : ∀ n ∈ names,
                ∃ v, firstMatch (strLower n) (p ++ [row]) = some v := by
              intro n hn
              cases hfm : firstMatch (strLower n) (p ++ [row]) with
              | some v => exact ⟨v, rfl⟩
              | none =>
                  exfalso
                  have hmem : n ∈ names.filter
                      (fun n => (firstMatch (strLower n) (p ++ [row])).isNone) := by
                    refine List.mem_filter.mpr ⟨hn, ?_⟩
                    rw [hfm]
                    rfl
                  rw [hfil] at hmem
                  cases hmem
            constructor
            · show dset st.rootIds n0 (some row.1) = _
              have h1 : dset st.rootIds n0 (some row.1)
                  = names.map (fun n => (n, firstMatch (strLower n) (p ++ [row]))) :=
                hinv'.1
              rw [h1]
              apply List.map_congr_left
              intro n hn
              congr 1
              obtain ⟨v, hv⟩ := hall n hn
              rw [hv, firstMatch_append_some _ _ _ _ hv]
            · show ddel st.notFound (strLower row.2) = _
              have h2 : ddel st.notFound (strLower row.2)
                  = (names.filter
                      (fun n => (firstMatch (strLower n) (p ++ [row])).isNone)).map
                      (fun n => ((strLower n), n)) :=
                hinv'.2
              rw [h2, hfil]
              have hfil2 : names.filter
                  (fun n => (firstMatch (strLower n) ((p ++ [row]) ++ rest)).isNone)
                  = [] := by
                rw [List.filter_eq_nil]
                intro n hn
                obtain ⟨v, hv⟩ := hall n hn
                rw [firstMatch_append_some _ _ _ _ hv]
                simp
              rw [hfil2]
          · rw [if_neg hb]
            exact ih (p ++ [row]) _ hinv'

theorem map_snd_pair_lower (l : List String) :
    (l.map (fun n => ((strLower n), n))).map (fun p => p.2) = l := by
  induction l with
  | nil => rfl
  | cons a rest ih =>
      simp only [List.map_cons]
      rw [ih]

theorem class_root_ids_ok (names : List String) (table : List (String × String))
    (hnd : (names.map strLower).Nodup)
    (hall : ∀ n ∈ names, (firstMatch (strLower n) table).isSome) :
    class_root_ids names table
      = Except.ok (names.map (fun n => (n, firstMatch (strLower n) table))) := by
  have hinv := resolveLoop_inv names hnd table [] (initResolveState names)
    (initResolveState_inv names hnd)
  rw [List.nil_append] at hinv
  have hfil : names.filter (fun n => (firstMatch (strLower n) table).isNone) = [] := by
    rw [List.filter_eq_nil_iff]
    intro n hn
    have hs := hall n hn
    cases hfm : firstMatch (strLower n) table with
    | none => rw [hfm] at hs; cases hs
    | some v => simp
  simp only [class_root_ids]
  rw [hinv.2, hfil]
  simp only [List.map_nil, List.isEmpty_nil, if_true]
  rw [hinv.1]

theorem class_root_ids_err (names : List String) (table : List (String × String))
    (hnd : (names.map strLower).Nodup)
    (hmiss : ∃ n ∈ names, firstMatch (strLower n) table = none) :
    class_root_ids names table
      = Except.error (names.filter (fun n => (firstMatch (strLower n) table).isNone)) := by
  have hinv := resolveLoop_inv names hnd table [] (initResolveState names)
    (initResolveState_inv names hnd)
  rw [List.nil_append] at hinv
  have hne : names.filter (fun n => (firstMatch (strLower n) table).isNone) ≠ [] := by
    obtain ⟨n, hn, hnone⟩ := hmiss
    intro hcon
    have hmem : n ∈ names.filter (fun n => (firstMatch (strLower n) table).isNone) := by
      refine List.mem_filter.mpr ⟨hn, ?_⟩
      rw [hnone]
      rfl
    rw [hcon] at hmem
    cases hmem
  simp only [class_root_ids]
  rw [hinv.2]
  have hemp : ((names.filter (fun n => (firstMatch (strLower n) table).isNone)).map
      (fun n => ((strLower n), n))).isEmpty = false := by
    cases hh : names.filter (fun n => (firstMatch (strLower n) table).isNone) with
    | nil => exact absurd hh hne
    | cons a l => rfl
  rw [hemp]
  simp only [Bool.false_eq_true, if_false]
  rw [map_snd_pair_lower]

/-! ## Helper lemmas: hierarchy search and expansion -/

mutual
theorem all_subtree_eq_toFinset :
    ∀ t : LabelTree, all_subtree_class_ids t = (allIdsList t).toFinset
  | .leaf n => by
      simp [all_subtree_class_ids, allIdsList]
  | .node n subs => by
      rw [all_subtree_class_ids, allIdsList, List.toFinset_cons,
        all_subtree_forest_eq_toFinset subs]
theorem all_subtree_forest_eq_toFinset :
    ∀ ts : LabelForest, all_subtree_forest_ids ts = (allIdsForest ts).toFinset
  | .nil => by
      simp [all_subtree_forest_ids, allIdsForest]
  | .cons t ts => by
      rw [all_subtree_forest_ids, allIdsForest, List.toFinset_append,
        all_subtree_eq_toFinset t, all_subtree_forest_eq_toFinset ts]
end

mutual
theorem get_all_subclasses_not_mem (class_id : String) :
    ∀ t : LabelTree, class_id ∉ allIdsList t → get_all_subclasses class_id t = ∅
  | .leaf n => by
      intro h
      rw [get_all_subclasses, if_neg]
      intro hh
      subst hh
      exact h (by simp [allIdsList])
  | .node n subs => by
      intro h
      rw [allIdsList] at h
      rw [get_all_subclasses, if_neg, get_all_subclasses_forest_not_mem class_id subs]
      · intro hmem
        exact h (List.mem_cons_of_mem _ hmem)
      · intro hh
        subst hh
        exact h (List.mem_cons_self _ _)
theorem get_all_subclasses_forest_not_mem (class_id : String) :
    ∀ ts : LabelForest, class_id ∉ allIdsForest ts →
      get_all_subclasses_forest class_id ts = ∅
  | .nil => by
      intro _
      rfl
  | .cons t ts => by
      intro h
      rw [allIdsForest] at h
      rw [get_all_subclasses_forest,
        get_all_subclasses_not_mem class_id t
          (fun hm => h (List.mem_append_left _ hm)),
        get_all_subclasses_forest_not_mem class_id ts
          (fun hm => h (List.mem_append_right _ hm))]
      simp
end

mutual
theorem dfsFind_none_not_mem (class_id : String) :
    ∀ t : LabelTree, dfsFind class_id t = none → class_id ∉ allIdsList t
  | .leaf n => by
      intro h
      rw [dfsFind] at h
      by_cases hn : n = class_id
      · rw [if_pos hn] at h; cases h
      · rw [allIdsList]
        intro hmem
        rcases List.mem_singleton.mp hmem with hh
        exact hn hh.symm
  | .node n subs => by
      intro h
      rw [dfsFind] at h
      by_cases hn : n = class_id
      · rw [if_pos hn] at h; cases h
      · rw [if_neg hn] at h
        rw [allIdsList]
        intro hmem
        rcases List.mem_cons.mp hmem with hh | hh
        · exact hn hh.symm
        · exact dfsFindForest_none_not_mem class_id subs h hh
theorem dfsFindForest_none_not_mem (class_id : String) :
    ∀ ts : LabelForest, dfsFindForest class_id ts = none →
      class_id ∉ allIdsForest ts
  | .nil => by
      intro _ hmem
      cases hmem
  | .cons t ts => by
      intro h
      rw [dfsFindForest] at h
      cases hf : dfsFind class_id t with
      | some u => rw [hf] at h; cases h
      | none =>
          rw [hf] at h
          rw [allIdsForest]
          intro hmem
          rcases List.mem_append.mp hmem with hh | hh
          · exact dfsFind_none_not_mem class_id t hf hh
          · exact dfsFindForest_none_not_mem class_id ts h hh
end

mutual
theorem dfsFind_some_mem (class_id : String) :
    ∀ (t : LabelTree) (u : LabelTree), dfsFind class_id t = some u →
      class_id ∈ allIdsList t
  | .leaf n, u => by
      intro h
      rw [dfsFind] at h
      by_cases hn : n = class_id
      · rw [allIdsList, hn]
        exact List.mem_singleton_self _
      · rw [if_neg hn] at h; cases h
  | .node n subs, u => by
      intro h
      rw [dfsFind] at h
      by_cases hn : n = class_id
      · rw [allIdsList, hn]
        exact List.mem_cons_self _ _
      · rw [if_neg hn] at h
        rw [allIdsList]
        exact List.mem_cons_of_mem _ (dfsFindForest_some_mem class_id subs u h)
theorem dfsFindForest_some_mem (class_id : String) :
    ∀ (ts : LabelForest) (u : LabelTree), dfsFindForest class_id ts = some u →
      class_id ∈ allIdsForest ts
  | .nil, u => by
      intro h
      cases h
  | .cons t ts, u => by
      intro h
      rw [dfsFindForest] at h
      cases hf : dfsFind class_id t with
      | some u0 =>
          rw [allIdsForest]
          exact List.mem_append_left _ (dfsFind_some_mem class_id t u0 hf)
      | none =>
          rw [hf] at h
          rw [allIdsForest]
          exact List.mem_append_right _ (dfsFindForest_some_mem class_id ts u h)
end

mutual
theorem get_all_subclasses_found (class_id : String) :
    ∀ (t : LabelTree) (u : LabelTree), (allIdsList t).Nodup →
      dfsFind class_id t = some u →
      get_all_subclasses class_id t = all_subtree_class_ids u
  | .leaf n, u => by
      intro hnd h
      rw [dfsFind] at h
      by_cases hn : n = class_id
      · rw [if_pos hn] at h
        cases h
        rw [get_all_subclasses, if_pos hn]
        rfl
      · rw [if_neg hn] at h; cases h
  | .node n subs, u => by
      intro hnd h
      rw [dfsFind] at h
      by_cases hn : n = class_id
      · rw [if_pos hn] at h
        cases h
        rw [get_all_subclasses, if_pos hn]
        rfl
      · rw [if_neg hn] at h
        rw [get_all_subclasses, if_neg hn]
        rw [allIdsList, List.nodup_cons] at hnd
        exact get_all_subclasses_forest_found class_id subs u hnd.2 h
theorem get_all_subclasses_forest_found (class_id : String) :
    ∀ (ts : LabelForest) (u : LabelTree), (allIdsForest ts).Nodup →
      dfsFindForest class_id ts = some u →
      get_all_subclasses_forest class_id ts = all_subtree_class_ids u
  | .nil, u => by
      intro _ h
      cases h
  | .cons t ts, u => by
      intro hnd h
      rw [allIdsForest, List.nodup_append] at hnd
      rw [dfsFindForest] at h
      rw [get_all_subclasses_forest]
      cases hf : dfsFind class_id t with
      | some u0 =>
          rw [hf] at h
          cases h
          have hmem : class_id ∈ allIdsList t := dfsFind_some_mem class_id t u hf
          have hnot : class_id ∉ allIdsForest ts := fun hm => hnd.2.2 hmem hm
          rw [get_all_subclasses_found class_id t u hnd.1 hf,
            get_all_subclasses_forest_not_mem class_id ts hnot]
          simp
      | none =>
          rw [hf] at h
          have hnot : class_id ∉ allIdsList t := dfsFind_none_not_mem class_id t hf
          rw [get_all_subclasses_not_mem class_id t hnot,
            get_all_subclasses_forest_found class_id ts u hnd.2.1 h]
          simp
end

/-! ## Helper lemmas: the quota warning data -/

theorem quotaWarnings_eq (skip : List String) (N off : Nat) (specs : List ClassSpec)
    (rows : List Row) (hN : 1 ≤ N * (off + 1)) :
    quotaWarnings skip N off specs rows
      = (specs.filter
          (fun sp => decide ((seenImgs skip sp rows).length < N * (off + 1)))).map
          (fun sp => (sp.name, min (N * (off + 1)) (seenImgs skip sp rows).length)) := by
  unfold quotaWarnings
  simp only []
  rw [runCollector_eq, zip_self_map]
  induction specs with
  | nil => rfl
  | cons sp rest ih =>
      have hun := runClass_unfilled_eq skip (N * (off + 1)) sp rows hN
      have hlen := runClass_length skip (N * (off + 1)) sp rows hN
      simp only [List.map_cons, List.filter_cons]
      by_cases hc : (seenImgs skip sp rows).length < N * (off + 1)
      · rw [if_pos ?_, if_pos ?_]
        · simp only [List.map_cons]
          rw [hlen, ih]
        · simpa using hc
        · show (runClass skip (N * (off + 1)) sp rows).unfilled = true
          rw [hun, hlen]
          simp only [decide_eq_true_eq]
          omega
      · rw [if_neg ?_, if_neg ?_]
        · exact ih
        · simpa using hc
        · show ¬ (runClass skip (N * (off + 1)) sp rows).unfilled = true
          rw [hun, hlen]
          simp only [decide_eq_true_eq]
          omega

/-! ## Claims -/

/-- C1: a class accepts new images exactly until it holds `N * (offset + 1)` distinct
image ids with at least one matching non-excluded row — the number of distinct images
accumulated equals `min (N * (offset + 1))` (number of matching images in the stream) —
and with `offset = 0` and at least `N` matching images per class, each class's trimmed
batch has exactly `N` images, all present in the merged output. -/
theorem C1_quota_capacity (skip : List String) (specs : List ClassSpec)
    (rows : List Row) (N off : Nat) (hN : 1 ≤ N) :
    (∀ sp : ClassSpec,
        (runClass skip (N * (off + 1)) sp rows).groups.length
          = min (N * (off + 1)) (seenImgs skip sp rows).length) ∧
    (off = 0 → (∀ sp ∈ specs, N ≤ (seenImgs skip sp rows).length) →
      ∀ sp ∈ specs,
        (lastSlice N (runClass skip (N * (off + 1)) sp rows).groups).length = N ∧
        ∀ img ∈ (lastSlice N
            (runClass skip (N * (off + 1)) sp rows).groups).map Prod.fst,
          img ∈ (collectBbs skip N off specs rows).map Prod.fst) := by
  have hneed : 1 ≤ N * (off + 1) :=
    Nat.mul_pos (Nat.lt_of_lt_of_le Nat.zero_lt_one hN) (Nat.succ_pos off)
  constructor
  · intro sp
    exact runClass_length skip (N * (off + 1)) sp rows hneed
  · intro hoff hmany sp hsp
    subst hoff
    constructor
    · have hL := runClass_length skip (N * (0 + 1)) sp rows hneed
      have hlen := lastSlice_length N
        (runClass skip (N * (0 + 1)) sp rows).groups hN
      rw [hL] at hlen
      rw [hlen]
      have hm := hmany sp hsp
      have he : N * (0 + 1) = N := by ring
      rw [he]
      omega
    · intro img himg
      rw [collectBbs_eq]
      apply foldl_merge_mem_keys
      right
      exact ⟨lastSlice N (runClass skip (N * (0 + 1)) sp rows).groups,
        List.mem_map_of_mem _ hsp, himg⟩

/-- C1 witness: with quota 1, offset 0 on the scenario stream, the Boot class
accumulates `min 1 2 = 1` image and its trimmed batch has exactly one image. -/
theorem C1_quota_capacity_witness :
    (1 ≤ 1) ∧
    (runClass [] (1 * (0 + 1)) ⟨"Boot", ["/m/01x3z"]⟩ demoRows).groups.length
        = min (1 * (0 + 1))
            (seenImgs [] ⟨"Boot", ["/m/01x3z"]⟩ demoRows).length ∧
    (lastSlice 1
        (runClass [] (1 * (0 + 1)) ⟨"Boot", ["/m/01x3z"]⟩ demoRows).groups).length
      = 1 :=
  ⟨by decide,
   (C1_quota_capacity [] demoSpecs demoRows 1 0 (by decide)).1 ⟨"Boot", ["/m/01x3z"]⟩,
   ((C1_quota_capacity [] demoSpecs demoRows 1 0 (by decide)).2 rfl (by decide)
      ⟨"Boot", ["/m/01x3z"]⟩ (by decide)).1⟩

/-- C2 counterexample: with quota 1, the image-group list accumulated at offset 0,
`[(img1, [box1])]`, is not a list prefix of the offset-1 accumulation
`[(img1, [box1, box2]), (img2, [box3])]` — the larger run appended a further box to
`img1` after the smaller run froze — refuting the claim that the accumulated
image-groups of the offset-`k` run form a prefix of the offset-`(k+1)` run's. -/
theorem C2_groups_not_plain_window_cex :
    ¬ ((runClass [] (1 * (0 + 1)) cexSpec cexRows).groups <+:
        (runClass [] (1 * (1 + 1)) cexSpec cexRows).groups) := by
  decide

/-- C2 amended: trimming keeps the last `N` image-groups (a suffix-take of length
`min N` (number accumulated)); and across offsets `k` and `k+1` the accumulated image
id sequences are related by list prefix, with each shared image's box list of the
smaller run a prefix of the larger run's — but the full groups need not be. -/
theorem C2_suffix_window (skip : List String) (sp : ClassSpec) (rows : List Row)
    (N k : Nat) (hN : 1 ≤ N) :
    (lastSlice N (runClass skip (N * (k + 1)) sp rows).groups <:+
        (runClass skip (N * (k + 1)) sp rows).groups) ∧
    (lastSlice N (runClass skip (N * (k + 1)) sp rows).groups).length
        = min N (runClass skip (N * (k + 1)) sp rows).groups.length ∧
    ((runClass skip (N * (k + 1)) sp rows).groups.map Prod.fst <+:
        (runClass skip (N * (k + 2)) sp rows).groups.map Prod.fst) ∧
    (∀ p ∈ (runClass skip (N * (k + 1)) sp rows).groups,
        ∃ v, (p.1, v) ∈ (runClass skip (N * (k + 2)) sp rows).groups ∧
          p.2 <+: v) := by
  have hle : N * (k + 1) ≤ N * (k + 2) := Nat.mul_le_mul_left N (by omega)
  have hsim := runClass_groupsLE skip (N * (k + 1)) (N * (k + 2)) sp rows hle
  exact ⟨lastSlice_suffix _ _, lastSlice_length _ _ hN, hsim.1, hsim.2⟩

/-- C2 witness: the amended statement at quota 1, offset 0 versus 1, on the
counterexample stream. -/
theorem C2_suffix_window_witness :
    (1 ≤ 1) ∧
    (lastSlice 1 (runClass [] (1 * (0 + 1)) cexSpec cexRows).groups <:+
        (runClass [] (1 * (0 + 1)) cexSpec cexRows).groups) ∧
    ((runClass [] (1 * (0 + 1)) cexSpec cexRows).groups.map Prod.fst <+:
        (runClass [] (1 * (0 + 2)) cexSpec cexRows).groups.map Prod.fst) :=
  ⟨by decide, (C2_suffix_window [] cexSpec cexRows 1 0 (by decide)).1,
    (C2_suffix_window [] cexSpec cexRows 1 0 (by decide)).2.2.1⟩

/-- C3: once every class has reached capacity after a prefix of the stream, the
remaining rows change nothing: the per-class states, the merged output and the image
count on the full stream equal those on the prefix. -/
theorem C3_early_stop (skip : List String) (N off : Nat) (specs : List ClassSpec)
    (p rest : List Row)
    (h : ∀ st ∈ runCollector skip (N * (off + 1)) specs p, st.unfilled = false) :
    collectBbs skip N off specs (p ++ rest) = collectBbs skip N off specs p ∧
    nImages skip N off specs (p ++ rest) = nImages skip N off specs p ∧
    runCollector skip (N * (off + 1)) specs (p ++ rest)
        = runCollector skip (N * (off + 1)) specs p := by
  refine ⟨collectBbs_freeze skip N off specs p rest h, ?_,
    runCollector_freeze skip (N * (off + 1)) specs p rest h⟩
  unfold nImages
  rw [collectBbs_freeze skip N off specs p rest h]

/-- C3 witness: both scenario classes are filled after the first two rows, so the
third row does not change the merged output. -/
theorem C3_early_stop_witness :
    (∀ st ∈ runCollector [] (1 * (0 + 1)) demoSpecs [demoBootRow1, demoCatRow1],
        st.unfilled = false) ∧
    collectBbs [] 1 0 demoSpecs ([demoBootRow1, demoCatRow1] ++ [demoBootRow2])
        = collectBbs [] 1 0 demoSpecs [demoBootRow1, demoCatRow1] :=
  ⟨by decide,
    (C3_early_stop [] 1 0 demoSpecs [demoBootRow1, demoCatRow1] [demoBootRow2]
      (by decide)).1⟩

/-- C4: when the class names have pairwise distinct lower-casings and each one
matches some table row case-insensitively, resolution succeeds and maps every name to
the id of the first row whose display name matches case-insensitively; the resolved
id depends only on the lower-cased name, so case variants resolve identically. -/
theorem C4_resolver_ok (names : List String) (table : List (String × String))
    (hnd : (names.map strLower).Nodup)
    (hall : ∀ n ∈ names, (firstMatch (strLower n) table).isSome) :
    class_root_ids names table
        = Except.ok (names.map (fun n => (n, firstMatch (strLower n) table))) ∧
    ∀ n1 n2 : String, (strLower n1) = (strLower n2) →
      firstMatch (strLower n1) table = firstMatch (strLower n2) table := by
  refine ⟨class_root_ids_ok names table hnd hall, ?_⟩
  intro n1 n2 h
  rw [h]

/-- C4 witness: `["boot", "CAT"]` resolve against the scenario table to the same ids
as the canonical spellings. -/
theorem C4_resolver_ok_witness :
    ((["boot", "CAT"].map strLower).Nodup) ∧
    class_root_ids ["boot", "CAT"] demoTable
      = Except.ok [("boot", some "/m/01x3z"), ("CAT", some "/m/0jbk")] := by
  refine ⟨by decide, ?_⟩
  rw [(C4_resolver_ok ["boot", "CAT"] demoTable (by decide) (by decide)).1]
  have hp : (["boot", "CAT"].map (fun n => (n, firstMatch (strLower n) demoTable)))
      = [("boot", some "/m/01x3z"), ("CAT", some "/m/0jbk")] := by decide
  rw [hp]

/-- C5: if some requested name has no case-insensitive match in the table, resolution
fails listing exactly the unmatched names in request order, and it does not fail when
every name is matched. -/
theorem C5_resolver_notfound (names : List String) (table : List (String × String))
    (hnd : (names.map strLower).Nodup) :
    ((∃ n ∈ names, firstMatch (strLower n) table = none) →
      class_root_ids names table
        = Except.error
            (names.filter (fun n => (firstMatch (strLower n) table).isNone))) ∧
    ((∀ n ∈ names, (firstMatch (strLower n) table).isSome) →
      ∃ m, class_root_ids names table = Except.ok m) := by
  constructor
  · intro h
    exact class_root_ids_err names table hnd h
  · intro h
    exact ⟨_, class_root_ids_ok names table hnd h⟩

/-- C5 witness: `["Boot", "Dog", "Emu"]` against the scenario table fails listing
exactly `["Dog", "Emu"]`. -/
theorem C5_resolver_notfound_witness :
    class_root_ids ["Boot", "Dog", "Emu"] demoTable
      = Except.error ["Dog", "Emu"] := by
  rw [(C5_resolver_notfound ["Boot", "Dog", "Emu"] demoTable (by decide)).1
    ⟨"Dog", by decide, by decide⟩]
  have hp : (["Boot", "Dog", "Emu"].filter
      (fun n => (firstMatch (strLower n) demoTable).isNone)) = ["Dog", "Emu"] := by
    decide
  rw [hp]

/-- C6: if the ids in the hierarchy are distinct and depth-first search finds the
node carrying the requested root id, expansion returns exactly the set of ids of that
node's subtree (itself included); for a childless node this is the singleton of its
own id. -/
theorem C6_subclass_expansion (tree u : LabelTree) (class_id : String)
    (hnd : (allIdsList tree).Nodup) (hf : dfsFind class_id tree = some u) :
    get_all_subclasses class_id tree = (allIdsList u).toFinset ∧
    (∀ n, u = LabelTree.leaf n →
      get_all_subclasses class_id tree = {n}) := by
  have h := get_all_subclasses_found class_id tree u hnd hf
  constructor
  · rw [h, all_subtree_eq_toFinset]
  · intro n hu
    subst hu
    rw [h]
    rfl

/-- C6 witness: expanding the leaf `"/m/0jbk"` of the scenario hierarchy yields the
singleton of its own id. -/
theorem C6_subclass_expansion_witness :
    (allIdsList demoTree).Nodup ∧
    get_all_subclasses "/m/0jbk" demoTree = {"/m/0jbk"} :=
  ⟨by decide,
    (C6_subclass_expansion demoTree (LabelTree.leaf "/m/0jbk") "/m/0jbk"
      (by decide) rfl).2 "/m/0jbk" rfl⟩

/-- C7: an id absent from the hierarchy expands to the empty set — the function is
total, so the condition is signalled by emptiness only, for every input tree. -/
theorem C7_absent_root (tree : LabelTree) (class_id : String)
    (h : class_id ∉ allIdsList tree) :
    get_all_subclasses class_id tree = ∅ :=
  get_all_subclasses_not_mem class_id tree h

/-- C7 witness: the id `"/m/zzz"` does not occur in the scenario hierarchy and its
expansion is empty. -/
theorem C7_absent_root_witness :
    "/m/zzz" ∉ allIdsList demoTree ∧
    get_all_subclasses "/m/zzz" demoTree = ∅ :=
  ⟨by decide, C7_absent_root demoTree "/m/zzz" (by decide)⟩

/-- C8 counterexample: with quota 3, offset 0 and a stream holding a single matching
image, the warning data is `[("Boot", 1)]` — the collected image count — not the
shortfall `3 - 1 = 2` the claim asserts. -/
theorem C8_quota_warning_cex :
    quotaWarnings [] 3 0 [⟨"Boot", ["/m/01x3z"]⟩] [demoBootRow1]
        = [("Boot", 1)] ∧
    quotaWarnings [] 3 0 [⟨"Boot", ["/m/01x3z"]⟩] [demoBootRow1]
        ≠ [("Boot", 3 * (0 + 1) - 1)] := by
  constructor
  · decide
  · decide

/-- C8 amended: when the stream is exhausted collection does not fail: the warning
data lists exactly the classes whose matching-image count fell short of
`N * (offset + 1)`, each paired with its collected image count (from which the
shortfall is derivable against the requested total), and the merged output is still
built from every class's trimmed groups. -/
theorem C8_quota_warning (skip : List String) (N off : Nat)
    (specs : List ClassSpec) (rows : List Row) (hN : 1 ≤ N * (off + 1)) :
    quotaWarnings skip N off specs rows
      = (specs.filter
          (fun sp => decide ((seenImgs skip sp rows).length < N * (off + 1)))).map
          (fun sp => (sp.name, min (N * (off + 1)) (seenImgs skip sp rows).length)) ∧
    collectBbs skip N off specs rows
      = (specs.map (fun sp =>
          lastSlice N (runClass skip (N * (off + 1)) sp rows).groups)).foldl
          mergeBatch [] :=
  ⟨quotaWarnings_eq skip N off specs rows hN, collectBbs_eq skip N off specs rows⟩

/-- C8 witness: the amended statement at quota 3, offset 0, on the one-row stream. -/
theorem C8_quota_warning_witness :
    (1 ≤ 3 * (0 + 1)) ∧
    quotaWarnings [] 3 0 [⟨"Boot", ["/m/01x3z"]⟩] [demoBootRow1]
      = (([⟨"Boot", ["/m/01x3z"]⟩] : List ClassSpec).filter
          (fun sp => decide
            ((seenImgs [] sp [demoBootRow1]).length < 3 * (0 + 1)))).map
          (fun sp =>
            (sp.name, min (3 * (0 + 1)) (seenImgs [] sp [demoBootRow1]).length)) :=
  ⟨by decide,
    (C8_quota_warning [] 3 0 [⟨"Boot", ["/m/01x3z"]⟩] [demoBootRow1] (by decide)).1⟩

/-- C9: the merged mapping concatenates, image by image, the box lists of every
class's trimmed batch in class order; its keys are distinct and `n_images` is their
count; and on the scenario rows with quota 1 the output is exactly
`{img1 : [Boot-box, Cat-box]}` with `img2` absent. -/
theorem C9_merge_output (skip : List String) (N off : Nat)
    (specs : List ClassSpec) (rows : List Row) :
    (∀ img : String,
      dgetBoxes (collectBbs skip N off specs rows) img
        = (specs.map (fun sp =>
            dgetBoxes
              (lastSlice N (runClass skip (N * (off + 1)) sp rows).groups)
              img)).flatten) ∧
    ((collectBbs skip N off specs rows).map Prod.fst).Nodup ∧
    nImages skip N off specs rows = (collectBbs skip N off specs rows).length ∧
    collectBbs [] 1 0 demoSpecs demoRows
        = [("img1", [mkBox "Boot" demoBootRow1, mkBox "Cat" demoCatRow1])] ∧
    dget (collectBbs [] 1 0 demoSpecs demoRows) "img2" = none := by
  refine ⟨?_, ?_, rfl, by decide, by decide⟩
  · intro img
    rw [collectBbs_eq]
    have hnod : ∀ b ∈ specs.map (fun sp =>
        lastSlice N (runClass skip (N * (off + 1)) sp rows).groups),
        (b.map Prod.fst).Nodup := by
      intro b hb
      obtain ⟨sp, hsp, rfl⟩ := List.mem_map.mp hb
      exact lastSlice_keys_nodup _ _ (runClass_keys_nodup _ _ _ _)
    rw [foldl_merge_boxes _ img [] hnod, List.map_map]
    rfl
  · rw [collectBbs_eq]
    apply foldl_merge_keys_nodup
    simp

/-- C10: once a class's capacity `N * (offset + 1)` is reached on a stream prefix,
appending any further rows leaves that class's state — including the box lists of
already-collected images — completely unchanged. -/
theorem C10_filled_class_ignores_rows (skip : List String) (N off : Nat)
    (sp : ClassSpec) (p rest : List Row)
    (h : (runClass skip (N * (off + 1)) sp p).unfilled = false) :
    runClass skip (N * (off + 1)) sp (p ++ rest)
      = runClass skip (N * (off + 1)) sp p :=
  runClass_freeze skip (N * (off + 1)) sp p rest h

/-- C10 witness: with quota 1 the class fills on the first `img1` row; a later
matching `img1` row adds nothing, so `img1` keeps a single box. -/
theorem C10_filled_class_ignores_rows_witness :
    (runClass [] (1 * (0 + 1)) cexSpec [cexRow1]).unfilled = false ∧
    runClass [] (1 * (0 + 1)) cexSpec ([cexRow1] ++ [cexRow2])
        = runClass [] (1 * (0 + 1)) cexSpec [cexRow1] ∧
    dgetBoxes (runClass [] (1 * (0 + 1)) cexSpec ([cexRow1] ++ [cexRow2])).groups
        "img1" = [mkBox "Boot" cexRow1] :=
  ⟨by decide,
    C10_filled_class_ignores_rows [] 1 0 cexSpec [cexRow1] [cexRow2] (by decide),
    by decide⟩
